import Mathlib

/-!
SimpleChatApp: a shallow embedding of `main.go`.

The Go program keeps an in-memory, append-only message history (`MessageStore`),
a dispatcher that relays queued inputs into the store (`Dispatcher`), timer-driven
simulated senders (`simulateUser`) and a line-oriented command loop (`main`).

Conventions of the embedding:

* a Go `string` is a Lean `String`, a Go slice is a `List`;
* a Go `int` is an `Int` kept in the 64-bit two's-complement range by `wrapInt`;
* `time.Now()` is an argument of the operation that reads the clock;
* a method with a pointer receiver takes the receiver's value and returns the
  new value next to its result;
* the `sync.RWMutex` of the store makes each method body one atomic step, so a
  method is a function on the store's value;
* a statement that may block or panic returns an `Outcome`.
-/

namespace SimpleChat

/-! ## Go runtime pieces -/

/-- Result of running a Go statement: it completes with a value, it blocks
(a channel operation that is not ready), or it panics with the runtime's text. -/
inductive Outcome (α : Type) where
  | done : α → Outcome α
  | blocked : Outcome α
  | panicked : String → Outcome α
deriving DecidableEq, Repr

/-- Largest value of a Go `int` on a 64-bit target, `math.MaxInt64`. -/
def maxInt : Int := 9223372036854775807

/-- Two's-complement wrap-around of 64-bit `int` arithmetic. -/
def wrapInt (x : Int) : Int :=
  (x + 9223372036854775808) % 18446744073709551616 - 9223372036854775808

/-- A reading of the wall clock, as `time.Now()` returns it. -/
abbrev Time := Int

/-! ## Message and MessageStore -/

/-- The Go struct `Message`. -/
structure Message where
  ID : Int
  UserID : String
  Text : String
  Timestamp : Time
deriving DecidableEq, Repr

/-- The zero value `Message{}`, which `make([]Message, n)` fills a slice with. -/
def Message.zero : Message := { ID := 0, UserID := "", Text := "", Timestamp := 0 }

/-- The Go struct `MessageStore` (the mutex carries no data). -/
structure MessageStore where
  messages : List Message
  nextID : Int
deriving DecidableEq, Repr

/-- `NewMessageStore()`: an empty history and `nextID` 1. -/
def NewMessageStore : MessageStore := { messages := [], nextID := 1 }

/-- `(*MessageStore).Add`: builds the message from `nextID`, the arguments and the
clock, appends it, increments `nextID`, and returns the message. -/
def MessageStore.Add (s : MessageStore) (userID text : String) (now : Time) :
    Message × MessageStore :=
  let msg : Message := { ID := s.nextID, UserID := userID, Text := text, Timestamp := now }
  (msg, { messages := s.messages ++ [msg], nextID := wrapInt (s.nextID + 1) })

/-- The builtin `make([]Message, n)`. -/
def makeMessages (n : Nat) : List Message := List.replicate n Message.zero

/-- The builtin `copy(dst, src)`: overwrites the first `min (len dst) (len src)`
elements of `dst` with those of `src`; returns the updated `dst`. -/
def copyMessages (dst src : List Message) : List Message :=
  src.take (min dst.length src.length) ++ dst.drop (min dst.length src.length)

/-- `(*MessageStore).All`: a fresh slice of the same length, filled by `copy`. -/
def MessageStore.All (s : MessageStore) : List Message × MessageStore :=
  let cpy := makeMessages s.messages.length
  let cpy := copyMessages cpy s.messages
  (cpy, s)

/-- One call of `Add`: its two arguments and the clock reading it takes. -/
structure AddCall where
  userID : String
  text : String
  now : Time
deriving DecidableEq, Repr

/-- A sequence of `Add` calls run in order on a store: the messages the calls
returned, in call order, and the final store. -/
def addAll (s : MessageStore) : List AddCall → List Message × MessageStore
  | [] => ([], s)
  | c :: cs =>
    let r := s.Add c.userID c.text c.now
    let rest := addAll r.2 cs
    (r.1 :: rest.1, rest.2)

/-! ## The `strings` and `unicode` functions the program calls -/

/-- The parts of Go's standard library whose tables are not reproduced here:
`unicode.ToLower` on one rune, the simple case-folding relation between two
distinct runes that `strings.EqualFold` consults, and the layout
`Format("2006-01-02 15:04:05")` of a clock reading. -/
structure GoLib where
  ToLower : Char → Char
  foldEq : Char → Char → Bool
  FormatTime : Time → String

/-- The standard library restricted to ASCII letters, where Go's tables map
`A`..`Z` to `a`..`z` and leave every other ASCII rune alone; clock readings are
printed as numbers. -/
def asciiLib : GoLib where
  ToLower := Char.toLower
  foldEq := fun a b => Char.toLower a == Char.toLower b
  FormatTime := fun t => toString t

/-- `strings.EqualFold` on the runes of its arguments: rune by rune, equal runes
pass, different runes pass when the folding tables relate them; both strings
must end together. -/
def equalFoldRunes (L : GoLib) : List Char → List Char → Bool
  | [], [] => true
  | a :: as, b :: bs => (a == b || L.foldEq a b) && equalFoldRunes L as bs
  | _, _ => false

/-- `strings.EqualFold(s, t)`. -/
def EqualFold (L : GoLib) (s t : String) : Bool := equalFoldRunes L s.data t.data

/-- `strings.ToLower(s)`: every rune mapped through `unicode.ToLower`. -/
def ToLower (L : GoLib) (s : String) : String := String.mk (s.data.map L.ToLower)

/-- `strings.HasPrefix` on rune lists. -/
def hasPrefixRunes : List Char → List Char → Bool
  | _, [] => true
  | [], _ :: _ => false
  | a :: as, b :: bs => a == b && hasPrefixRunes as bs

/-- `strings.Contains` on rune lists: `sub` occurs at some offset of `s`. -/
def containsRunes : List Char → List Char → Bool
  | [], sub => hasPrefixRunes [] sub
  | a :: as, sub => hasPrefixRunes (a :: as) sub || containsRunes as sub

/-- `strings.Contains(s, substr)`. -/
def Contains (s substr : String) : Bool := containsRunes s.data substr.data

/-- `unicode.IsSpace`: the runes with the White_Space property. -/
def IsSpace (c : Char) : Bool :=
  let n := c.toNat
  n == 9 || n == 10 || n == 11 || n == 12 || n == 13 || n == 32 || n == 0x85 || n == 0xA0
    || n == 0x1680 || (0x2000 ≤ n && n ≤ 0x200A) || n == 0x2028 || n == 0x2029
    || n == 0x202F || n == 0x205F || n == 0x3000

/-- `strings.TrimSpace(s)`: leading and trailing white space removed. -/
def TrimSpace (s : String) : String :=
  String.mk ((s.data.dropWhile IsSpace).reverse.dropWhile IsSpace).reverse

/-- Loop of `strings.Fields`: `cur` holds the runes of the field being read. -/
def fieldsRunes (cur : List Char) : List Char → List (List Char)
  | [] => if cur.isEmpty then [] else [cur]
  | c :: cs =>
    if IsSpace c then
      if cur.isEmpty then fieldsRunes [] cs else cur :: fieldsRunes [] cs
    else fieldsRunes (cur ++ [c]) cs

/-- `strings.Fields(s)`: the maximal runs of runes that are not white space. -/
def Fields (s : String) : List String := (fieldsRunes [] s.data).map String.mk

/-- `strings.Join(elems, sep)`. -/
def Join (elems : List String) (sep : String) : String := sep.intercalate elems

/-! ## The read methods of the store -/

/-- `(*MessageStore).FilterByUser`: the `for range` loop appending each message
whose `UserID` passes `strings.EqualFold` to `res`. -/
def MessageStore.FilterByUser (L : GoLib) (s : MessageStore) (userID : String) :
    List Message × MessageStore :=
  let res := s.messages.foldl
    (fun res m => if EqualFold L m.UserID userID then res ++ [m] else res) []
  (res, s)

/-- `(*MessageStore).SearchByKeyword`: lower-cases the keyword once, then the
`for range` loop appends each message whose lower-cased text contains it. -/
def MessageStore.SearchByKeyword (L : GoLib) (s : MessageStore) (keyword : String) :
    List Message × MessageStore :=
  let kw := ToLower L keyword
  let res := s.messages.foldl
    (fun res m => if Contains (ToLower L m.Text) kw then res ++ [m] else res) []
  (res, s)

/-- What the specification calls a case-insensitive match of two user ids: the
same number of runes, and at each position the same rune up to case. -/
def sameUserFold (L : GoLib) (a b : String) : Prop :=
  List.Forall₂ (fun x y => x = y ∨ L.foldEq x y = true) a.data b.data

/-- What the specification calls a case-insensitive substring: some stretch of
consecutive runes of `text` equals `k` rune by rune once both are lower-cased. -/
def containsFold (L : GoLib) (text k : String) : Prop :=
  ∃ pre mid post, text.data = pre ++ mid ++ post ∧
    List.Forall₂ (fun x y => L.ToLower x = L.ToLower y) mid k.data

/-! ## Channels and the dispatcher -/

/-- The Go struct `MessageInput`. -/
structure MessageInput where
  UserID : String
  Text : String
deriving DecidableEq, Repr

/-- A buffered `chan MessageInput` that is never closed: the buffered elements,
oldest first, and the capacity given to `make`. -/
structure Chan where
  buf : List MessageInput
  cap : Nat
deriving DecidableEq, Repr

/-- The statement `c <- v`: completes when the buffer has room, blocks otherwise. -/
def Chan.send (c : Chan) (v : MessageInput) : Outcome Chan :=
  if c.buf.length < c.cap then .done { c with buf := c.buf ++ [v] } else .blocked

/-- The expression `<-c`: completes with the oldest element, blocks when empty. -/
def Chan.recv (c : Chan) : Outcome (MessageInput × Chan) :=
  match c.buf with
  | [] => .blocked
  | v :: rest => .done (v, { c with buf := rest })

/-- An unbuffered `chan struct{}` on which nothing is ever sent: all there is to
its state is whether `close` has been called on it. -/
structure Signal where
  closed : Bool
deriving DecidableEq, Repr

/-- Whether the case `<-q` of a `select` is ready: only a closed channel
yields a value here. -/
def Signal.ready (q : Signal) : Bool := q.closed

/-- The builtin `close(q)`: panics on a channel that is already closed. -/
def Signal.close (q : Signal) : Outcome Signal :=
  if q.closed then .panicked "close of closed channel" else .done { closed := true }

/-- The Go struct `Dispatcher`; `store` stands for the store the pointer leads to. -/
structure Dispatcher where
  store : MessageStore
  incoming : Chan
  quit : Signal
deriving DecidableEq, Repr

/-- `NewDispatcher(store)`: a queue of capacity 100 and an open quit channel. -/
def NewDispatcher (store : MessageStore) : Dispatcher :=
  { store := store, incoming := { buf := [], cap := 100 }, quit := { closed := false } }

/-- `(*Dispatcher).Send`: one channel send of the input built from the arguments. -/
def Dispatcher.Send (d : Dispatcher) (userID text : String) : Outcome Dispatcher :=
  match d.incoming.send { UserID := userID, Text := text } with
  | .done c => .done { d with incoming := c }
  | .blocked => .blocked
  | .panicked e => .panicked e

/-- `(*Dispatcher).Stop`: the `select` takes the receive case when the quit
channel is closed already, and the `default` case, which closes it, otherwise. -/
def Dispatcher.Stop (d : Dispatcher) : Outcome Dispatcher :=
  if d.quit.ready then .done d
  else
    match d.quit.close with
    | .done q => .done { d with quit := q }
    | .blocked => .blocked
    | .panicked e => .panicked e

/-- `(*Dispatcher).broadcast`: the line written to standard output. -/
def Dispatcher.broadcast (L : GoLib) (msg : Message) : String :=
  "[" ++ L.FormatTime msg.Timestamp ++ "] " ++ msg.UserID ++ ": " ++ msg.Text ++ "\n"

/-! ## The dispatcher with its consumer goroutine, as a transition system -/

/-- The dispatcher together with the goroutine `Start` launches and the text
written to standard output. -/
structure System where
  d : Dispatcher
  started : Bool
  running : Bool
  stdout : List String
deriving DecidableEq, Repr

/-- The steps of the system. `deliver` is one pass through the first `select`
case of the consumer (receive, `store.Add`, `broadcast`), with the clock reading
`Add` takes; `observeQuit` is one pass through its second case. -/
inductive Event where
  | start : Event
  | send : String → String → Event
  | deliver : Time → Event
  | observeQuit : Event
  | stop : Event
deriving DecidableEq, Repr

/-- The state `main` builds before anything runs. -/
def System.init : System :=
  { d := NewDispatcher NewMessageStore, started := false, running := false, stdout := [] }

/-- One step. `Start` is taken once, as `main` does; a step that is not ready
(a full queue, an empty queue, an open quit channel, no consumer) is `blocked`. -/
def System.step (L : GoLib) (s : System) : Event → Outcome System
  | .start =>
    if s.started then .blocked else .done { s with started := true, running := true }
  | .send userID text =>
    match s.d.Send userID text with
    | .done d => .done { s with d := d }
    | .blocked => .blocked
    | .panicked e => .panicked e
  | .deliver now =>
    if s.running then
      match s.d.incoming.recv with
      | .done (mi, c) =>
        let r := s.d.store.Add mi.UserID mi.Text now
        .done { s with d := { s.d with store := r.2, incoming := c },
                       stdout := s.stdout ++ [Dispatcher.broadcast L r.1] }
      | .blocked => .blocked
      | .panicked e => .panicked e
    else .blocked
  | .observeQuit =>
    if s.running && s.d.quit.ready then .done { s with running := false } else .blocked
  | .stop =>
    match s.d.Stop with
    | .done d => .done { s with d := d }
    | .blocked => .blocked
    | .panicked e => .panicked e

/-- A sequence of steps taken one after the other. -/
def System.run (L : GoLib) (s : System) : List Event → Outcome System
  | [] => .done s
  | e :: es =>
    match s.step L e with
    | .done s1 => System.run L s1 es
    | .blocked => .blocked
    | .panicked msg => .panicked msg

/-- The states some sequence of steps leads to from the initial state. -/
def System.Reachable (L : GoLib) (s : System) : Prop :=
  ∃ es, System.init.run L es = .done s

/-- The inputs whose `Send` completed along a sequence of steps, in order. -/
def sentInputs : List Event → List MessageInput
  | [] => []
  | .send userID text :: es => { UserID := userID, Text := text } :: sentInputs es
  | _ :: es => sentInputs es

/-- The user id and text of a stored message. -/
def Message.pair (m : Message) : String × String := (m.UserID, m.Text)

/-- The user id and text of a queued input. -/
def MessageInput.pair (mi : MessageInput) : String × String := (mi.UserID, mi.Text)

/-- Whether an event is a pass of the consumer through its receive case. -/
def Event.isDeliver : Event → Bool
  | .deliver _ => true
  | _ => false

/-! ## Two calls of `Stop` running side by side -/

/-- Where a call of `Stop` stands: before its `select`, in the `default` case
before `close`, or returned. -/
inductive StopPC where
  | atSelect : StopPC
  | atClose : StopPC
  | returned : StopPC
deriving DecidableEq, Repr

/-- The quit channel and the positions of the two callers. -/
structure StopRace where
  quit : Signal
  first : StopPC
  second : StopPC
deriving DecidableEq, Repr

/-- The position of a caller; `false` names the first caller, `true` the second. -/
def StopRace.pc (r : StopRace) (who : Bool) : StopPC := if who then r.second else r.first

/-- The state with the position of one caller replaced. -/
def StopRace.setPC (r : StopRace) (who : Bool) (pc : StopPC) : StopRace :=
  if who then { r with second := pc } else { r with first := pc }

/-- Both callers start at their `select`. -/
def StopRace.init (quit : Signal) : StopRace :=
  { quit := quit, first := .atSelect, second := .atSelect }

/-- One channel operation of one caller of `Stop`: the `select` (which picks the
receive case and returns when the quit channel is closed, and enters `default`
otherwise), or the `close` in `default`. A returned caller has no step left. -/
def StopRace.step (r : StopRace) (who : Bool) : Outcome StopRace :=
  match r.pc who with
  | .atSelect =>
    if r.quit.ready then .done (r.setPC who .returned) else .done (r.setPC who .atClose)
  | .atClose =>
    match r.quit.close with
    | .done q => .done ({ r with quit := q }.setPC who .returned)
    | .blocked => .blocked
    | .panicked e => .panicked e
  | .returned => .blocked

/-- The steps of a schedule, which names the caller that moves at each turn. -/
def StopRace.run (r : StopRace) : List Bool → Outcome StopRace
  | [] => .done r
  | who :: rest =>
    match r.step who with
    | .done r1 => StopRace.run r1 rest
    | .blocked => .blocked
    | .panicked e => .panicked e

/-- Both callers are in `default`, past the check and before the `close`. -/
def StopRace.bothAtClose (r : StopRace) : Bool :=
  r.first == .atClose && r.second == .atClose

/-- Whether a schedule ever leaves both callers between check and `close`. -/
def StopRace.overlaps (r : StopRace) : List Bool → Bool
  | [] => r.bothAtClose
  | who :: rest =>
    r.bothAtClose ||
      match r.step who with
      | .done r1 => StopRace.overlaps r1 rest
      | _ => false

/-- What holds of two calls that never overlap: a caller in `default` has seen the
quit channel open and it still is, a returned caller leaves it closed. -/
def StopRace.consistent (r : StopRace) : Bool :=
  (r.first != .atClose || !r.quit.closed) && (r.second != .atClose || !r.quit.closed)
    && (r.first != .returned || r.quit.closed) && (r.second != .returned || r.quit.closed)

/-! ## Simulated senders -/

/-- The operator `a % b` on `int`: truncated remainder, a panic on a zero divisor. -/
def intRem (a b : Int) : Outcome Int :=
  if b = 0 then .panicked "integer divide by zero" else .done (Int.tmod a b)

/-- The index expression `xs[i]` on a slice of strings with its bounds check. -/
def indexString (xs : List String) (i : Int) : Outcome String :=
  if 0 ≤ i ∧ i < xs.length then
    match xs.get? i.toNat with
    | some x => .done x
    | none => .panicked "index out of range"
  else .panicked "index out of range"

/-- The tick case of the `select` in `simulateUser`: evaluates
`messages[idx%len(messages)]`, calls `d.Send` with it, then increments `idx`.
The result is the new `idx` and the dispatcher after the send. -/
def simulateUserTick (name : String) (messages : List String) (idx : Int) (d : Dispatcher) :
    Outcome (Int × Dispatcher) :=
  match intRem idx messages.length with
  | .done i =>
    match indexString messages i with
    | .done text =>
      match d.Send name text with
      | .done d1 => .done (wrapInt (idx + 1), d1)
      | .blocked => .blocked
      | .panicked e => .panicked e
    | .blocked => .blocked
    | .panicked e => .panicked e
  | .blocked => .blocked
  | .panicked e => .panicked e

/-- The goroutine of `simulateUser` over the ticks it takes before the stop case
of its `select` ends it. Other goroutines use the dispatcher between two ticks,
so each tick meets a dispatcher state of its own: `ds` lists the dispatcher each
tick finds, the result lists the dispatcher each tick leaves, next to the final
`idx`. -/
def simulateUserTicks (name : String) (messages : List String) (idx : Int) :
    List Dispatcher → Outcome (Int × List Dispatcher)
  | [] => .done (idx, [])
  | d :: ds =>
    match simulateUserTick name messages idx d with
    | .done (idx1, d1) =>
      match simulateUserTicks name messages idx1 ds with
      | .done (idx2, out) => .done (idx2, d1 :: out)
      | .blocked => .blocked
      | .panicked e => .panicked e
    | .blocked => .blocked
    | .panicked e => .panicked e

/-- `simulateUser` from its start, where `idx := 0`. -/
def simulateUser (name : String) (messages : List String) (ds : List Dispatcher) :
    Outcome (Int × List Dispatcher) :=
  simulateUserTicks name messages 0 ds

/-- The dispatcher with one more input at the tail of its queue. -/
def Dispatcher.enqueued (d : Dispatcher) (userID text : String) : Dispatcher :=
  { d with incoming := { d.incoming with buf := d.incoming.buf ++ [{ UserID := userID, Text := text }] } }

/-- What the specification says the ticks numbered `k`, `k + 1`, ... do: tick
number `j` adds the sender's name with `messages[j mod len(messages)]` to the queue. -/
def cycleSends (name : String) (messages : List String) (k : Nat) :
    List Dispatcher → List Dispatcher
  | [] => []
  | d :: ds =>
    d.enqueued name (messages.getD (k % messages.length) "")
      :: cycleSends name messages (k + 1) ds

/-! ## The interactive command loop of `main` -/

/-- What `scanner.Scan()` delivers: a line (`scanner.Text()`), the end of the
input, or a read error with its text. -/
inductive Scan where
  | line : String → Scan
  | eof : Scan
  | err : String → Scan
deriving DecidableEq, Repr

/-- How one pass through the loop body ends: at the next pass (`continue` or the
end of the body), at `break`, or at `return`. -/
inductive Flow where
  | next : Flow
  | broke : Flow
  | returned : Flow
deriving DecidableEq, Repr

/-- What the command loop works on: the dispatcher with the store behind it, and
the text written so far to standard output and standard error. -/
structure App where
  d : Dispatcher
  stdout : List String
  stderr : List String
deriving DecidableEq, Repr

/-- The text `fmt.Println(s)` writes. -/
def println (s : String) : String := s ++ "\n"

/-- `prettyPrintMessages`: the writes to standard output, in order. -/
def prettyPrintMessages (L : GoLib) (msgs : List Message) : List String :=
  if msgs.length = 0 then [println "No messages found."]
  else msgs.map (fun m =>
    "#" ++ toString m.ID ++ " [" ++ L.FormatTime m.Timestamp ++ "] " ++ m.UserID ++ ": "
      ++ m.Text ++ "\n")

/-- The lines the `help` command prints. -/
def helpLines : List String :=
  [ println "Commands:",
    println "  send <UserID> <message...>  - send a message as UserID",
    println "  history                     - show all messages",
    println "  search user <UserID>        - show messages by a user",
    println "  search keyword <word>       - search messages by keyword",
    println "  help                        - show this help",
    println "  quit / exit                 - exit the program" ]

/-- The usage line of `send`. -/
def sendUsage : String := println "Usage: send <UserID> <message...>"

/-- The usage line of `search`. -/
def searchUsage : String := println "Usage: search user <UserID>  OR  search keyword <word>"

/-- The line printed for a command the `switch` has no case for. -/
def unknownCommand : String := println "Unknown command. Type 'help' for commands."

/-- The `switch cmd` of the loop body, on a line with at least one field. -/
def dispatchCommand (L : GoLib) (a : App) (parts : List String) (cmd : String) :
    Outcome (App × Flow) :=
  if cmd = "quit" ∨ cmd = "exit" then
    .done ({ a with stdout := a.stdout ++ [println "Exiting chat. Bye!"] }, .returned)
  else if cmd = "help" then
    .done ({ a with stdout := a.stdout ++ helpLines }, .next)
  else if cmd = "send" then
    if parts.length < 3 then
      .done ({ a with stdout := a.stdout ++ [sendUsage] }, .next)
    else
      let userID := parts.getD 1 ""
      let text := Join (parts.drop 2) " "
      match a.d.Send userID text with
      | .done d => .done ({ a with d := d }, .next)
      | .blocked => .blocked
      | .panicked e => .panicked e
  else if cmd = "history" then
    let r := a.d.store.All
    .done ({ a with d := { a.d with store := r.2 },
                    stdout := a.stdout ++ prettyPrintMessages L r.1 }, .next)
  else if cmd = "search" then
    if parts.length < 3 then
      .done ({ a with stdout := a.stdout ++ [searchUsage] }, .next)
    else
      let subcmd := ToLower L (parts.getD 1 "")
      let arg := Join (parts.drop 2) " "
      if subcmd = "user" then
        let r := a.d.store.FilterByUser L arg
        .done ({ a with d := { a.d with store := r.2 },
                        stdout := a.stdout ++ prettyPrintMessages L r.1 }, .next)
      else if subcmd = "keyword" then
        let r := a.d.store.SearchByKeyword L arg
        .done ({ a with d := { a.d with store := r.2 },
                        stdout := a.stdout ++ prettyPrintMessages L r.1 }, .next)
      else
        .done ({ a with stdout := a.stdout
                  ++ [println "Unknown search subcommand. Use: user OR keyword"] }, .next)
  else
    .done ({ a with stdout := a.stdout ++ [unknownCommand] }, .next)

/-- One pass through the body of the `for` loop of `main`: the prompt, the scan,
and the handling of the line. -/
def mainLoopBody (L : GoLib) (a : App) (scan : Scan) : Outcome (App × Flow) :=
  let a := { a with stdout := a.stdout ++ ["> "] }
  match scan with
  | .err e =>
    .done ({ a with stderr := a.stderr ++ ["\n[error] scanner error: " ++ e ++ "\n"] }, .broke)
  | .eof =>
    .done ({ a with stderr := a.stderr ++ [println "\n[info] input closed (EOF). Exiting."] },
      .broke)
  | .line text =>
    let line := TrimSpace text
    if line = "" then .done (a, .next)
    else
      let parts := Fields line
      match parts with
      | [] => .panicked "index out of range [0] with length 0"
      | p0 :: _ => dispatchCommand L a parts (ToLower L p0)

/-- The `for` loop of `main` over the successive results of `scanner.Scan()`; it
stops at the first pass that does not end at `next`. -/
def mainLoop (L : GoLib) (a : App) : List Scan → Outcome (App × Flow)
  | [] => .done (a, .next)
  | sc :: rest =>
    match mainLoopBody L a sc with
    | .done (a1, .next) => mainLoop L a1 rest
    | other => other

/-- The commands the `switch` has a case for. -/
def knownCommands : List String := ["quit", "exit", "help", "send", "history", "search"]

/-! ## Lemmas on the store -/

theorem wrapInt_of_range (x : Int) (h1 : -9223372036854775808 ≤ x)
    (h2 : x ≤ 9223372036854775807) : wrapInt x = x := by
  unfold wrapInt
  omega

theorem addAll_messages (calls : List AddCall) (s : MessageStore) :
    (addAll s calls).2.messages = s.messages ++ (addAll s calls).1 := by
  induction calls generalizing s with
  | nil => simp [addAll]
  | cons c cs ih =>
    simp only [addAll]
    rw [ih]
    simp [MessageStore.Add]

theorem addAll_length (calls : List AddCall) (s : MessageStore) :
    (addAll s calls).1.length = calls.length := by
  induction calls generalizing s with
  | nil => simp [addAll]
  | cons c cs ih => simp [addAll, ih]

theorem addAll_fields (calls : List AddCall) (s : MessageStore) :
    (addAll s calls).1.map (fun m => (m.UserID, m.Text, m.Timestamp))
      = calls.map (fun c => (c.userID, c.text, c.now)) := by
  induction calls generalizing s with
  | nil => simp [addAll]
  | cons c cs ih => simp [addAll, ih, MessageStore.Add]

theorem addAll_ids (calls : List AddCall) (s : MessageStore) (k : Nat)
    (hs : s.nextID = (k : Int) + 1) (hk : (k : Int) + calls.length ≤ maxInt) :
    (addAll s calls).1.map (fun m => m.ID)
      = (List.range calls.length).map (fun (i : Nat) => (k : Int) + 1 + (i : Int)) := by
  induction calls generalizing s k with
  | nil => simp [addAll]
  | cons c cs ih =>
    simp only [addAll, List.map_cons, List.length_cons, List.range_succ_eq_map,
      List.map_map]
    have hid : (s.Add c.userID c.text c.now).1.ID = (k : Int) + 1 + ((0 : Nat) : Int) := by
      simp [MessageStore.Add, hs]
    rw [hid]
    congr 1
    cases cs with
    | nil => simp [addAll]
    | cons c2 cs2 =>
      have hlen : (k : Int) + ((cs2.length + 1 + 1 : Nat) : Int) ≤ maxInt := by
        simpa using hk
      have hnext : (s.Add c.userID c.text c.now).2.nextID = ((k + 1 : Nat) : Int) + 1 := by
        simp only [MessageStore.Add, hs]
        rw [wrapInt_of_range]
        · push_cast; ring
        · omega
        · unfold maxInt at hlen; push_cast at hlen; omega
      have hk2 : ((k + 1 : Nat) : Int) + ((c2 :: cs2).length : Int) ≤ maxInt := by
        simp only [List.length_cons]; push_cast at hlen ⊢; omega
      rw [ih _ (k + 1) hnext hk2]
      apply List.map_congr_left
      intro i _
      simp only [Function.comp]
      push_cast
      ring


theorem copyMessages_make (src : List Message) :
    copyMessages (makeMessages src.length) src = src := by
  simp [copyMessages, makeMessages]

theorem all_eq (s : MessageStore) : s.All = (s.messages, s) := by
  simp [MessageStore.All, copyMessages_make]

theorem foldl_keep (p : Message → Bool) (xs acc : List Message) :
    xs.foldl (fun res m => if p m then res ++ [m] else res) acc = acc ++ xs.filter p := by
  induction xs generalizing acc with
  | nil => simp
  | cons x xs ih =>
    simp only [List.foldl_cons, List.filter_cons]
    by_cases hp : p x = true
    · simp [hp, ih]
    · simp [hp, ih]

theorem equalFoldRunes_iff (L : GoLib) (as bs : List Char) :
    equalFoldRunes L as bs = true
      ↔ List.Forall₂ (fun x y => x = y ∨ L.foldEq x y = true) as bs := by
  induction as generalizing bs with
  | nil =>
    cases bs with
    | nil => simp [equalFoldRunes]
    | cons b bs => simp [equalFoldRunes]
  | cons a as ih =>
    cases bs with
    | nil => simp [equalFoldRunes]
    | cons b bs => simp [equalFoldRunes, ih]

theorem hasPrefixRunes_iff (s sub : List Char) :
    hasPrefixRunes s sub = true ↔ sub <+: s := by
  induction s generalizing sub with
  | nil =>
    cases sub with
    | nil => simp [hasPrefixRunes]
    | cons b bs => simp [hasPrefixRunes]
  | cons a as ih =>
    cases sub with
    | nil => simp [hasPrefixRunes]
    | cons b bs =>
      simp only [hasPrefixRunes, Bool.and_eq_true, beq_iff_eq, ih, List.cons_prefix_cons]
      constructor
      · rintro ⟨h1, h2⟩; exact ⟨h1.symm, h2⟩
      · rintro ⟨h1, h2⟩; exact ⟨h1.symm, h2⟩

theorem containsRunes_iff (s sub : List Char) :
    containsRunes s sub = true ↔ sub <:+: s := by
  induction s with
  | nil =>
    simp only [containsRunes, hasPrefixRunes_iff]
    constructor
    · intro h; exact h.isInfix
    · intro h
      have : sub = [] := List.eq_nil_of_infix_nil h
      simp [this]
  | cons a as ih =>
    simp only [containsRunes, Bool.or_eq_true, hasPrefixRunes_iff, ih]
    exact List.infix_cons_iff.symm

theorem infix_map_iff (f : Char → Char) (k text : List Char) :
    k.map f <:+: text.map f
      ↔ ∃ pre mid post, text = pre ++ mid ++ post ∧
          List.Forall₂ (fun x y => f x = f y) mid k := by
  constructor
  · rintro ⟨p, q, h⟩
    have h1 : text.map f = p ++ (k.map f ++ q) := by rw [← h]; simp
    obtain ⟨pre, rest, hsplit, hpre, hrest⟩ := List.map_eq_append_iff.mp h1
    obtain ⟨mid, post, hsplit2, hmid, hpost⟩ := List.map_eq_append_iff.mp hrest
    refine ⟨pre, mid, post, ?_, ?_⟩
    · rw [hsplit, hsplit2]; simp
    · have h2 : List.Forall₂ (fun a b => a = b) (mid.map f) (k.map f) := by
        rw [List.forall₂_eq_eq_eq]; exact hmid
      rw [List.forall₂_map_left_iff, List.forall₂_map_right_iff] at h2
      exact h2
  · rintro ⟨pre, mid, post, htext, hmid⟩
    have hm : mid.map f = k.map f := by
      have h2 : List.Forall₂ (fun a b => a = b) (mid.map f) (k.map f) := by
        rw [List.forall₂_map_left_iff, List.forall₂_map_right_iff]
        exact hmid
      rw [List.forall₂_eq_eq_eq] at h2
      exact h2
    refine ⟨pre.map f, post.map f, ?_⟩
    rw [htext, ← hm]
    simp

theorem contains_lower_iff (L : GoLib) (text k : String) :
    Contains (ToLower L text) (ToLower L k) = true ↔ containsFold L text k := by
  unfold Contains ToLower containsFold
  simp only [containsRunes_iff]
  exact infix_map_iff L.ToLower k.data text.data

theorem containsRunes_nil (s : List Char) : containsRunes s [] = true := by
  cases s <;> simp [containsRunes, hasPrefixRunes]

/-! ## The claims on the store -/

/-- C1: for every sequence of `Add` calls on a new store (no longer than a Go slice
can be), the stored ids are 1, 2, 3, ... in append order, hence strictly increasing
and without repetition, and the messages the calls returned are the stored ones. -/
theorem add_ids_start_at_one_and_increase (calls : List AddCall)
    (hlen : (calls.length : Int) ≤ maxInt) :
    (addAll NewMessageStore calls).2.messages = (addAll NewMessageStore calls).1
    ∧ (addAll NewMessageStore calls).2.messages.map (fun m => m.ID)
        = (List.range calls.length).map (fun (i : Nat) => (i : Int) + 1)
    ∧ ((addAll NewMessageStore calls).2.messages.map (fun m => m.ID)).Pairwise (fun a b => a < b)
    ∧ ((addAll NewMessageStore calls).2.messages.map (fun m => m.ID)).Nodup
    ∧ (∀ (s : MessageStore) (u t : String) (now : Time),
        (s.Add u t now).2.messages = s.messages ++ [(s.Add u t now).1]
        ∧ (s.Add u t now).1.ID = s.nextID) := by
  have hmsgs : (addAll NewMessageStore calls).2.messages = (addAll NewMessageStore calls).1 := by
    rw [addAll_messages]; simp [NewMessageStore]
  have hids : (addAll NewMessageStore calls).1.map (fun m => m.ID)
      = (List.range calls.length).map (fun (i : Nat) => (i : Int) + 1) := by
    have h := addAll_ids calls NewMessageStore 0 (by simp [NewMessageStore]) (by simpa using hlen)
    rw [h]
    apply List.map_congr_left
    intro i _
    push_cast
    ring
  have hpw : ((List.range calls.length).map (fun (i : Nat) => (i : Int) + 1)).Pairwise
      (fun a b => a < b) := by
    rw [List.pairwise_map]
    refine (List.pairwise_lt_range calls.length).imp ?_
    intro a b hab
    omega
  refine ⟨hmsgs, ?_, ?_, ?_, ?_⟩
  · rw [hmsgs, hids]
  · rw [hmsgs, hids]; exact hpw
  · rw [hmsgs, hids]
    exact hpw.imp (fun h => ne_of_lt h)
  · intro s u t now
    simp [MessageStore.Add]

/-- Witness of C1 on the two calls of the specification's scenario. -/
theorem add_ids_start_at_one_and_increase_witness :
    (addAll NewMessageStore [⟨"Alice", "hi", 10⟩, ⟨"Bob", "yo", 20⟩]).2.messages.map
      (fun m => m.ID) = [1, 2] :=
  (add_ids_start_at_one_and_increase [⟨"Alice", "hi", 10⟩, ⟨"Bob", "yo", 20⟩]
    (by decide)).2.1

/-- C2: after any sequence of `Add` calls on a new store, `All()` returns as many
messages as there were calls, the i-th with the user id, text and clock reading
of the i-th call; `All()` returns the history of any store and leaves the store
as it was; on the scenario it returns ids 1 and 2 for Alice and Bob. -/
theorem all_returns_messages_in_call_order (calls : List AddCall) :
    ((addAll NewMessageStore calls).2.All).1.length = calls.length
    ∧ ((addAll NewMessageStore calls).2.All).1.map (fun m => (m.UserID, m.Text, m.Timestamp))
        = calls.map (fun c => (c.userID, c.text, c.now))
    ∧ (∀ s : MessageStore, (s.All).1 = s.messages ∧ (s.All).2 = s)
    ∧ (∀ t1 t2 : Time,
        ((addAll NewMessageStore [⟨"Alice", "hi", t1⟩, ⟨"Bob", "yo", t2⟩]).2.All).1
          = [⟨1, "Alice", "hi", t1⟩, ⟨2, "Bob", "yo", t2⟩]) := by
  have hmsgs : (addAll NewMessageStore calls).2.messages = (addAll NewMessageStore calls).1 := by
    rw [addAll_messages]; simp [NewMessageStore]
  refine ⟨?_, ?_, ?_, ?_⟩
  · rw [all_eq, hmsgs, addAll_length]
  · rw [all_eq, hmsgs, addAll_fields]
  · intro s; rw [all_eq]; exact ⟨rfl, rfl⟩
  · intro t1 t2
    rw [all_eq]
    rfl

/-- C3: `FilterByUser(u)` returns the messages of `All()` that pass
`strings.EqualFold` against `u`, in the same order; `EqualFold` holds exactly when
the two ids agree rune by rune up to case; the store is left as it was; on the
scenario `FilterByUser("alice")` is the one message with id 1. -/
theorem filterByUser_is_exact_sublist (L : GoLib) (s : MessageStore) (u : String) :
    (s.FilterByUser L u).1 = (s.All).1.filter (fun m => EqualFold L m.UserID u)
    ∧ (s.FilterByUser L u).1.Sublist (s.All).1
    ∧ (∀ m, m ∈ (s.FilterByUser L u).1 ↔ m ∈ (s.All).1 ∧ sameUserFold L m.UserID u)
    ∧ (s.FilterByUser L u).2 = s
    ∧ (∀ t1 t2 : Time,
        ((addAll NewMessageStore [⟨"Alice", "hi", t1⟩, ⟨"Bob", "yo", t2⟩]).2.FilterByUser
          asciiLib "alice").1 = [⟨1, "Alice", "hi", t1⟩]) := by
  have h1 : (s.FilterByUser L u).1 = (s.All).1.filter (fun m => EqualFold L m.UserID u) := by
    rw [all_eq]
    simp only [MessageStore.FilterByUser]
    rw [foldl_keep (fun m => EqualFold L m.UserID u)]
    simp
  refine ⟨h1, ?_, ?_, rfl, ?_⟩
  · rw [h1]; exact List.filter_sublist _
  · intro m
    rw [h1, List.mem_filter]
    unfold EqualFold sameUserFold
    rw [equalFoldRunes_iff]
  · intro t1 t2
    rfl

/-- C4: `SearchByKeyword(k)` returns the messages of `All()` whose lower-cased text
contains the lower-cased `k`, in the same order; that test holds exactly when `k`
is a case-insensitive substring of the text; the empty keyword returns every
message; on the scenario `SearchByKeyword("MEET")` is the one message with id 1. -/
theorem searchByKeyword_is_exact_sublist (L : GoLib) (s : MessageStore) (k : String) :
    (s.SearchByKeyword L k).1
        = (s.All).1.filter (fun m => Contains (ToLower L m.Text) (ToLower L k))
    ∧ (s.SearchByKeyword L k).1.Sublist (s.All).1
    ∧ (∀ m, m ∈ (s.SearchByKeyword L k).1 ↔ m ∈ (s.All).1 ∧ containsFold L m.Text k)
    ∧ (s.SearchByKeyword L "").1 = (s.All).1
    ∧ (s.SearchByKeyword L k).2 = s
    ∧ (∀ t1 t2 : Time,
        ((addAll NewMessageStore [⟨"A", "meeting at 3", t1⟩, ⟨"B", "lunch", t2⟩]).2.SearchByKeyword
          asciiLib "MEET").1 = [⟨1, "A", "meeting at 3", t1⟩]) := by
  have h1 : ∀ k : String, (s.SearchByKeyword L k).1
      = (s.All).1.filter (fun m => Contains (ToLower L m.Text) (ToLower L k)) := by
    intro k
    rw [all_eq]
    simp only [MessageStore.SearchByKeyword]
    rw [foldl_keep (fun m => Contains (ToLower L m.Text) (ToLower L k))]
    simp
  refine ⟨h1 k, ?_, ?_, ?_, rfl, ?_⟩
  · rw [h1]; exact List.filter_sublist _
  · intro m
    rw [h1, List.mem_filter, contains_lower_iff]
  · rw [h1]
    apply List.filter_eq_self.mpr
    intro m _
    simp [Contains, ToLower, containsRunes_nil]
  · intro t1 t2
    rfl


/-! ## The dispatcher -/

theorem run_append (L : GoLib) (es fs : List Event) (s : System) :
    s.run L (es ++ fs) =
      match s.run L es with
      | .done s1 => s1.run L fs
      | .blocked => .blocked
      | .panicked e => .panicked e := by
  induction es generalizing s with
  | nil => simp [System.run]
  | cons e es ih =>
    simp only [List.cons_append, System.run]
    cases h : s.step L e with
    | done s1 => simp [ih]
    | blocked => simp
    | panicked msg => simp

theorem step_pairs (L : GoLib) (s s1 : System) (e : Event) (h : s.step L e = .done s1) :
    s1.d.store.messages.map Message.pair ++ s1.d.incoming.buf.map MessageInput.pair
      = s.d.store.messages.map Message.pair ++ s.d.incoming.buf.map MessageInput.pair
          ++ (sentInputs [e]).map MessageInput.pair := by
  cases e with
  | start =>
    simp only [System.step] at h
    split at h
    · cases h
    · cases h; simp [sentInputs]
  | send u t =>
    simp only [System.step, Dispatcher.Send, Chan.send] at h
    split at h
    · rename_i d hd
      split at hd
      · rename_i c hc
        split at hc
        · cases hc; cases hd; cases h
          simp [sentInputs, MessageInput.pair]
        · cases hc
      · cases hd
      · cases hd
    · cases h
    · cases h
  | deliver now =>
    simp only [System.step, Chan.recv] at h
    split at h
    · split at h
      · rename_i mi c hr
        split at hr
        · cases hr
        · rename_i v rest hbuf
          cases hr; cases h
          simp [sentInputs, MessageStore.Add, Message.pair, MessageInput.pair, hbuf]
      · cases h
      · cases h
    · cases h
  | observeQuit =>
    simp only [System.step] at h
    split at h
    · cases h; simp [sentInputs]
    · cases h
  | stop =>
    simp only [System.step, Dispatcher.Stop, Signal.close] at h
    split at h
    · rename_i d hd
      split at hd
      · cases hd; cases h; simp [sentInputs]
      · split at hd
        · rename_i q hq
          cases hd; cases h; simp [sentInputs]
        · cases hd
        · cases hd
    · cases h
    · cases h

theorem sentInputs_cons (e : Event) (es : List Event) :
    sentInputs (e :: es) = sentInputs [e] ++ sentInputs es := by
  cases e <;> simp [sentInputs]

theorem run_pairs (L : GoLib) (es : List Event) (s s1 : System) (h : s.run L es = .done s1) :
    s1.d.store.messages.map Message.pair ++ s1.d.incoming.buf.map MessageInput.pair
      = s.d.store.messages.map Message.pair ++ s.d.incoming.buf.map MessageInput.pair
          ++ (sentInputs es).map MessageInput.pair := by
  induction es generalizing s with
  | nil =>
    simp only [System.run] at h
    cases h
    simp [sentInputs]
  | cons e es ih =>
    simp only [System.run] at h
    cases hstep : s.step L e with
    | done s2 =>
      rw [hstep] at h
      rw [ih s2 h, step_pairs L s s2 e hstep, sentInputs_cons e es]
      simp
    | blocked => rw [hstep] at h; cases h
    | panicked msg => rw [hstep] at h; cases h

/-- C5: in every state the dispatcher reaches from the initial state, the
(user id, text) pairs of the stored messages followed by those of the queued
inputs are the inputs enqueued so far, in order; so the stored messages are a
leading part of the enqueued inputs, in their FIFO order, none twice or changed;
and a pass of the running consumer takes the head of the queue and appends it,
with the next id, to the store. -/
theorem store_then_queue_is_enqueued_sequence (L : GoLib) (es : List Event) (s : System)
    (h : System.init.run L es = .done s) :
    s.d.store.messages.map Message.pair ++ s.d.incoming.buf.map MessageInput.pair
        = (sentInputs es).map MessageInput.pair
    ∧ s.d.store.messages.map Message.pair <+: (sentInputs es).map MessageInput.pair
    ∧ (∀ (mi : MessageInput) (rest : List MessageInput) (now : Time),
        s.running = true → s.d.incoming.buf = mi :: rest →
          ∃ s1, s.step L (.deliver now) = .done s1
            ∧ s1.d.incoming.buf = rest
            ∧ s1.d.store.messages
                = s.d.store.messages ++ [⟨s.d.store.nextID, mi.UserID, mi.Text, now⟩]) := by
  have hp := run_pairs L es System.init s h
  have hp2 : s.d.store.messages.map Message.pair ++ s.d.incoming.buf.map MessageInput.pair
      = (sentInputs es).map MessageInput.pair := by
    rw [hp]; simp [System.init, NewDispatcher, NewMessageStore]
  refine ⟨hp2, ⟨_, hp2⟩, ?_⟩
  intro mi rest now hrun hbuf
  simp [System.step, Chan.recv, hrun, hbuf, MessageStore.Add]

/-- Witness of C5: two sends and one delivery leave Alice stored and Bob queued. -/
theorem store_then_queue_is_enqueued_sequence_witness :
    [("Alice", "hi")] ++ [("Bob", "yo")]
      = (sentInputs [.start, .send "Alice" "hi", .send "Bob" "yo", .deliver 7]).map
          MessageInput.pair :=
  (store_then_queue_is_enqueued_sequence asciiLib
    [.start, .send "Alice" "hi", .send "Bob" "yo", .deliver 7]
    { d := { store := { messages := [⟨1, "Alice", "hi", 7⟩], nextID := 2 },
             incoming := { buf := [⟨"Bob", "yo"⟩], cap := 100 },
             quit := { closed := false } },
      started := true, running := true, stdout := ["[7] Alice: hi\n"] }
    (by decide)).1

/-- C6: from every dispatcher state `Stop()` returns without a panic with the quit
channel closed and the queue and the store as they were, and a second `Stop()`
returns without a panic and changes nothing more. -/
theorem stop_twice_same_as_once (d : Dispatcher) :
    ∃ d1, d.Stop = .done d1 ∧ d1.Stop = .done d1
      ∧ d1.quit.closed = true ∧ d1.incoming = d.incoming ∧ d1.store = d.store := by
  rcases d with ⟨store, incoming, ⟨closed⟩⟩
  cases closed
  · exact ⟨⟨store, incoming, ⟨true⟩⟩, by simp [Dispatcher.Stop, Signal.ready, Signal.close]⟩
  · exact ⟨⟨store, incoming, ⟨true⟩⟩, by simp [Dispatcher.Stop, Signal.ready]⟩


/-! ## Two calls of `Stop` side by side -/

theorem stopRace_step_safe (r : StopRace) (who : Bool) (hc : r.consistent = true)
    (hb : r.bothAtClose = false) :
    r.step who = .blocked ∨ ∃ r1, r.step who = .done r1 ∧ r1.consistent = true := by
  rcases r with ⟨⟨closed⟩, first, second⟩
  cases closed <;> cases first <;> cases second <;> cases who <;>
    simp [StopRace.step, StopRace.pc, StopRace.setPC, StopRace.consistent,
      StopRace.bothAtClose, Signal.ready, Signal.close] at hc hb ⊢

theorem stopRace_run_safe (sched : List Bool) (r : StopRace) (hc : r.consistent = true)
    (ho : r.overlaps sched = false) :
    (∀ e, r.run sched ≠ .panicked e) ∧ (∀ r1, r.run sched = .done r1 → r1.consistent = true) := by
  induction sched generalizing r with
  | nil =>
    constructor
    · intro e h; simp [StopRace.run] at h
    · intro r1 h
      simp only [StopRace.run] at h
      cases h; exact hc
  | cons who rest ih =>
    simp only [StopRace.overlaps, Bool.or_eq_false_iff] at ho
    obtain ⟨hb, hrest⟩ := ho
    rcases stopRace_step_safe r who hc hb with hblk | ⟨r1, hstep, hc1⟩
    · simp [StopRace.run, hblk]
    · rw [hstep] at hrest
      simp only [StopRace.run, hstep]
      exact ih r1 hc1 hrest

/-- C7, as amended: for every schedule of two calls of `Stop()` that never leaves
both calls between their check and their `close`, no step panics, and a call
that has returned leaves the quit channel closed. -/
theorem stop_calls_without_overlap_never_panic (quit : Signal) (sched : List Bool)
    (ho : (StopRace.init quit).overlaps sched = false) :
    (∀ e, (StopRace.init quit).run sched ≠ .panicked e)
    ∧ (∀ r, (StopRace.init quit).run sched = .done r →
        (r.first = .returned ∨ r.second = .returned) → r.quit.closed = true) := by
  have hc : (StopRace.init quit).consistent = true := by
    simp [StopRace.init, StopRace.consistent]
  have h := stopRace_run_safe sched (StopRace.init quit) hc ho
  refine ⟨h.1, ?_⟩
  intro r hr hret
  have hcr := h.2 r hr
  rcases r with ⟨⟨closed⟩, first, second⟩
  cases closed <;> cases first <;> cases second <;>
    simp [StopRace.consistent] at hcr hret ⊢

/-- Witness of the amended C7: the first call runs to its end, then the second. -/
theorem stop_calls_without_overlap_never_panic_witness :
    (StopRace.init { closed := false }).run [false, false, true]
      ≠ .panicked "close of closed channel" :=
  (stop_calls_without_overlap_never_panic { closed := false } [false, false, true]
    (by decide)).1 "close of closed channel"

/-- C7 fails as stated: when both calls check the open quit channel before either
closes it, the second `close` panics. -/
theorem stop_calls_interleaved_double_close :
    (StopRace.init { closed := false }).run [false, true, false, true]
        = .panicked "close of closed channel"
    ∧ ¬ (∀ sched : List Bool, ∀ e : String,
          (StopRace.init { closed := false }).run sched ≠ .panicked e) := by
  have h : (StopRace.init { closed := false }).run [false, true, false, true]
      = .panicked "close of closed channel" := by decide
  exact ⟨h, fun hall => hall _ _ h⟩

/-! ## The bounded queue -/

theorem step_cap (L : GoLib) (s s1 : System) (e : Event) (h : s.step L e = .done s1)
    (hinv : s.d.incoming.buf.length ≤ s.d.incoming.cap) :
    s1.d.incoming.cap = s.d.incoming.cap ∧ s1.d.incoming.buf.length ≤ s1.d.incoming.cap := by
  cases e with
  | start =>
    simp only [System.step] at h
    split at h
    · cases h
    · cases h; exact ⟨rfl, hinv⟩
  | send u t =>
    simp only [System.step, Dispatcher.Send, Chan.send] at h
    split at h
    · rename_i d hd
      split at hd
      · rename_i c hc
        split at hc
        · rename_i hlt
          cases hc; cases hd; cases h
          refine ⟨rfl, ?_⟩
          simp only [List.length_append, List.length_singleton]
          exact hlt
        · cases hc
      · cases hd
      · cases hd
    · cases h
    · cases h
  | deliver now =>
    simp only [System.step, Chan.recv] at h
    split at h
    · split at h
      · rename_i mi c hr
        split at hr
        · cases hr
        · rename_i v rest hbuf
          cases hr; cases h
          rw [hbuf] at hinv
          simp only [List.length_cons] at hinv
          exact ⟨rfl, by simp only; omega⟩
      · cases h
      · cases h
    · cases h
  | observeQuit =>
    simp only [System.step] at h
    split at h
    · cases h; exact ⟨rfl, hinv⟩
    · cases h
  | stop =>
    simp only [System.step, Dispatcher.Stop, Signal.close] at h
    split at h
    · rename_i d hd
      split at hd
      · cases hd; cases h; exact ⟨rfl, hinv⟩
      · split at hd
        · rename_i q hq
          cases hd; cases h; exact ⟨rfl, hinv⟩
        · cases hd
        · cases hd
    · cases h
    · cases h

theorem run_cap (L : GoLib) (es : List Event) (s s1 : System) (h : s.run L es = .done s1)
    (hinv : s.d.incoming.buf.length ≤ s.d.incoming.cap) :
    s1.d.incoming.cap = s.d.incoming.cap ∧ s1.d.incoming.buf.length ≤ s1.d.incoming.cap := by
  induction es generalizing s with
  | nil =>
    simp only [System.run] at h
    cases h; exact ⟨rfl, hinv⟩
  | cons e es ih =>
    simp only [System.run] at h
    cases hstep : s.step L e with
    | done s2 =>
      rw [hstep] at h
      have h2 := step_cap L s s2 e hstep hinv
      have h3 := ih s2 h h2.2
      exact ⟨h3.1.trans h2.1, h3.2⟩
    | blocked => rw [hstep] at h; cases h
    | panicked msg => rw [hstep] at h; cases h

theorem reachable_cap (L : GoLib) (s : System) (h : System.Reachable L s) :
    s.d.incoming.cap = 100 ∧ s.d.incoming.buf.length ≤ 100 := by
  obtain ⟨es, hes⟩ := h
  have h2 := run_cap L es System.init s hes (by simp [System.init, NewDispatcher])
  have hcap : s.d.incoming.cap = 100 := by
    rw [h2.1]; simp [System.init, NewDispatcher]
  exact ⟨hcap, hcap ▸ h2.2⟩

theorem step_full_stays_full (L : GoLib) (s s1 : System) (e : Event)
    (hfull : s.d.incoming.buf.length = s.d.incoming.cap) (hnd : e.isDeliver = false)
    (h : s.step L e = .done s1) : s1.d.incoming = s.d.incoming := by
  cases e with
  | start =>
    simp only [System.step] at h
    split at h
    · cases h
    · cases h; rfl
  | send u t =>
    simp [System.step, Dispatcher.Send, Chan.send, hfull] at h
  | deliver now => simp [Event.isDeliver] at hnd
  | observeQuit =>
    simp only [System.step] at h
    split at h
    · cases h; rfl
    · cases h
  | stop =>
    simp only [System.step, Dispatcher.Stop, Signal.close] at h
    split at h
    · rename_i d hd
      split at hd
      · cases hd; cases h; rfl
      · split at hd
        · rename_i q hq
          cases hd; cases h; rfl
        · cases hd
        · cases hd
    · cases h
    · cases h

theorem run_full_stays_full (L : GoLib) (es : List Event) (s s1 : System)
    (hfull : s.d.incoming.buf.length = s.d.incoming.cap)
    (hnd : ∀ e ∈ es, e.isDeliver = false)
    (h : s.run L es = .done s1) : s1.d.incoming = s.d.incoming := by
  induction es generalizing s with
  | nil =>
    simp only [System.run] at h
    cases h; rfl
  | cons e es ih =>
    simp only [System.run] at h
    cases hstep : s.step L e with
    | done s2 =>
      rw [hstep] at h
      have h2 := step_full_stays_full L s s2 e hfull (hnd e (List.mem_cons_self _ _)) hstep
      have h3 := ih s2 (by rw [h2]; exact hfull)
        (fun e2 he2 => hnd e2 (List.mem_cons_of_mem _ he2)) h
      rw [h3, h2]
    | blocked => rw [hstep] at h; cases h
    | panicked msg => rw [hstep] at h; cases h

/-- C8: in every reachable state the queue holds at most 100 inputs; a `Send` on a
queue with fewer than 100 completes and puts its input, unchanged, at the tail; a
`Send` on a queue of 100 blocks, and in any continuation in which it completes the
consumer has taken an input off the queue before. -/
theorem queue_is_bounded_and_send_blocks_when_full (L : GoLib) (s : System)
    (hs : System.Reachable L s) (userID text : String) :
    s.d.incoming.buf.length ≤ 100
    ∧ (s.d.incoming.buf.length < 100 →
        s.step L (.send userID text) = .done { s with d := s.d.enqueued userID text })
    ∧ (s.d.incoming.buf.length = 100 →
        s.step L (.send userID text) = .blocked
        ∧ ∀ (es : List Event) (s1 : System),
            s.run L (es ++ [.send userID text]) = .done s1 →
              ∃ e ∈ es, e.isDeliver = true) := by
  obtain ⟨hcap, hle⟩ := reachable_cap L s hs
  refine ⟨hle, ?_, ?_⟩
  · intro hlt
    simp [System.step, Dispatcher.Send, Chan.send, hcap, hlt, Dispatcher.enqueued]
  · intro hfull
    have hblocked : ∀ s2 : System, s2.d.incoming = s.d.incoming →
        s2.step L (.send userID text) = .blocked := by
      intro s2 h2
      simp [System.step, Dispatcher.Send, Chan.send, h2, hcap, hfull]
    refine ⟨hblocked s rfl, ?_⟩
    intro es s1 hrun
    by_contra hno
    have hnd : ∀ e ∈ es, e.isDeliver = false := by
      intro e he
      cases hd : e.isDeliver with
      | false => rfl
      | true => exact absurd ⟨e, he, hd⟩ hno
    rw [run_append] at hrun
    cases hpre : s.run L es with
    | done s2 =>
      rw [hpre] at hrun
      have hsame := run_full_stays_full L es s s2 (by rw [hcap, hfull]) hnd hpre
      simp [System.run, hblocked s2 hsame] at hrun
    | blocked => rw [hpre] at hrun; cases hrun
    | panicked msg => rw [hpre] at hrun; cases hrun


/-- Witness of C8: after 100 sends with no consumer the queue is full and the next
`Send` blocks. -/
theorem queue_is_bounded_and_send_blocks_when_full_witness :
    System.step asciiLib
      { d := { store := NewMessageStore,
               incoming := { buf := List.replicate 100 ⟨"u", "t"⟩, cap := 100 },
               quit := { closed := false } },
        started := false, running := false, stdout := [] }
      (.send "Alice" "hi") = .blocked :=
  ((queue_is_bounded_and_send_blocks_when_full asciiLib
      { d := { store := NewMessageStore,
               incoming := { buf := List.replicate 100 ⟨"u", "t"⟩, cap := 100 },
               quit := { closed := false } },
        started := false, running := false, stdout := [] }
      ⟨List.replicate 100 (.send "u" "t"), by decide⟩ "Alice" "hi").2.2 (by decide)).1

/-! ## The simulated sender -/

theorem simulateUserTick_spec (name : String) (messages : List String) (k : Nat)
    (d : Dispatcher) (hne : messages ≠ [])
    (hroom : d.incoming.buf.length < d.incoming.cap) :
    simulateUserTick name messages (k : Int) d
      = .done (wrapInt ((k : Int) + 1),
          d.enqueued name (messages.getD (k % messages.length) "")) := by
  have hlen : 0 < messages.length := List.length_pos.mpr hne
  have hmod : k % messages.length < messages.length := Nat.mod_lt _ hlen
  have hrem : intRem (k : Int) (messages.length : Int)
      = .done (((k % messages.length : Nat)) : Int) := by
    unfold intRem
    rw [if_neg (by omega), Int.ofNat_tmod]
  have hidx : indexString messages (((k % messages.length : Nat)) : Int)
      = .done (messages.getD (k % messages.length) "") := by
    unfold indexString
    rw [if_pos ⟨by omega, by exact_mod_cast hmod⟩]
    simp only [Int.toNat_ofNat, List.get?_eq_getElem?, List.getElem?_eq_getElem hmod,
      List.getD_eq_getElem messages "" hmod]
  unfold simulateUserTick
  rw [hrem]
  simp only [hidx, Dispatcher.Send, Chan.send, if_pos hroom, Dispatcher.enqueued]

theorem simulateUserTicks_spec (name : String) (messages : List String) (ds : List Dispatcher)
    (k : Nat) (hne : messages ≠ []) (hk : (k : Int) ≤ maxInt)
    (hlen : (k : Int) + ds.length ≤ maxInt + 1)
    (hroom : ∀ d ∈ ds, d.incoming.buf.length < d.incoming.cap) :
    simulateUserTicks name messages (k : Int) ds
      = .done (wrapInt ((k : Int) + ds.length), cycleSends name messages k ds) := by
  induction ds generalizing k with
  | nil =>
    simp only [simulateUserTicks, cycleSends, List.length_nil, Nat.cast_zero, add_zero]
    rw [wrapInt_of_range _ (by omega) (by unfold maxInt at hk; omega)]
  | cons d ds ih =>
    have hd := simulateUserTick_spec name messages k d hne
      (hroom d (List.mem_cons_self _ _))
    simp only [simulateUserTicks, hd, cycleSends]
    cases ds with
    | nil =>
      simp [simulateUserTicks, cycleSends]
    | cons d2 ds2 =>
      have hlen2 : (k : Int) + ((ds2.length + 1 + 1 : Nat) : Int) ≤ maxInt + 1 := by
        simpa using hlen
      have hk1 : ((k + 1 : Nat) : Int) ≤ maxInt := by
        push_cast at hlen2 ⊢; omega
      have hw : wrapInt ((k : Int) + 1) = ((k + 1 : Nat) : Int) := by
        rw [wrapInt_of_range _ (by omega) (by unfold maxInt at hk1; push_cast at hk1; omega)]
        push_cast; rfl
      rw [hw, ih (k + 1) hk1 (by simp only [List.length_cons]; push_cast at hlen2 ⊢; omega)
        (fun d3 hd3 => hroom d3 (List.mem_cons_of_mem _ hd3))]
      have harith : ((k + 1 : Nat) : Int) + ((d2 :: ds2).length : Int)
          = (k : Int) + ((d :: d2 :: ds2).length : Int) := by
        simp only [List.length_cons]; push_cast; ring
      rw [harith]

theorem cycleSends_get (name : String) (messages : List String) (ds : List Dispatcher)
    (k j : Nat) (d : Dispatcher) (hd : ds.get? j = some d) :
    (cycleSends name messages k ds).get? j
      = some (d.enqueued name (messages.getD ((k + j) % messages.length) "")) := by
  induction ds generalizing k j with
  | nil => simp at hd
  | cons d0 ds ih =>
    cases j with
    | zero =>
      simp only [List.get?_cons_zero, Option.some.injEq] at hd
      simp [cycleSends, hd]
    | succ j =>
      simp only [List.get?_cons_succ] at hd
      simp only [cycleSends, List.get?_cons_succ]
      rw [ih (k + 1) j hd]
      congr 4
      omega

/-- C10: a simulated sender with a non-empty message list, over any run of ticks
that each find room in the queue and that number at most 2^63 (the range of the
`int` counter), completes every tick; tick number `j` (from 0) leaves the
dispatcher it found with exactly one more input at the tail of the queue, the
sender's name with `messages[j mod len(messages)]`, and that index is in bounds. -/
theorem simulated_sender_cycles_through_messages (name : String) (messages : List String)
    (ds : List Dispatcher) (hne : messages ≠ [])
    (hlen : (ds.length : Int) ≤ maxInt + 1)
    (hroom : ∀ d ∈ ds, d.incoming.buf.length < d.incoming.cap) :
    simulateUser name messages ds
        = .done (wrapInt ds.length, cycleSends name messages 0 ds)
    ∧ (∀ (j : Nat) (d : Dispatcher), ds.get? j = some d →
        ∃ text, messages.get? (j % messages.length) = some text
          ∧ (cycleSends name messages 0 ds).get? j = some (d.enqueued name text)
          ∧ (d.enqueued name text).incoming.buf
              = d.incoming.buf ++ [{ UserID := name, Text := text }])
    ∧ (∀ j : Nat, j % messages.length < messages.length) := by
  have hpos : 0 < messages.length := List.length_pos.mpr hne
  refine ⟨?_, ?_, fun j => Nat.mod_lt _ hpos⟩
  · have h := simulateUserTicks_spec name messages ds 0 hne (by unfold maxInt; simp)
      (by simpa using hlen) hroom
    simpa [simulateUser] using h
  · intro j d hd
    have hmod : j % messages.length < messages.length := Nat.mod_lt _ hpos
    refine ⟨messages.getD (j % messages.length) "", ?_, ?_, rfl⟩
    · rw [List.get?_eq_getElem?, List.getElem?_eq_getElem hmod,
        List.getD_eq_getElem messages "" hmod]
    · have h := cycleSends_get name messages ds 0 j d hd
      simpa using h

/-- Witness of C10: Alice's three messages over four ticks wrap around to the first. -/
theorem simulated_sender_cycles_through_messages_witness :
    simulateUser "Alice" ["Hello!", "Anyone up for coffee?", "I am debugging Go code."]
        (List.replicate 4 (NewDispatcher NewMessageStore))
      = .done (wrapInt 4,
          cycleSends "Alice" ["Hello!", "Anyone up for coffee?", "I am debugging Go code."] 0
            (List.replicate 4 (NewDispatcher NewMessageStore))) :=
  (simulated_sender_cycles_through_messages "Alice"
    ["Hello!", "Anyone up for coffee?", "I am debugging Go code."]
    (List.replicate 4 (NewDispatcher NewMessageStore)) (by decide) (by decide)
    (by decide)).1


/-! ## The command loop -/

theorem fields_ne_nil_line_ne_empty (line p0 : String) (rest : List String)
    (h : Fields line = p0 :: rest) : line ≠ "" := by
  intro hl
  rw [hl] at h
  simp [Fields, fieldsRunes] at h

theorem mainLoopBody_line (L : GoLib) (a : App) (text p0 : String) (rest : List String)
    (h : Fields (TrimSpace text) = p0 :: rest) :
    mainLoopBody L a (.line text)
      = dispatchCommand L { a with stdout := a.stdout ++ ["> "] } (p0 :: rest) (ToLower L p0) := by
  have hne := fields_ne_nil_line_ne_empty _ _ _ h
  simp only [mainLoopBody, if_neg hne, h]

/-- C9: a line the loop reads whose first field lower-cases to `send` and that has
fewer than three fields prints the prompt and the usage line of `send`; a line
whose first field lower-cases to none of the known commands prints the prompt and
the unknown-command line; in both cases the dispatcher (its queue and the store
behind it) and standard error are as before, and the loop goes on to the next
line. -/
theorem malformed_send_and_unknown_command_only_print (L : GoLib) (a : App)
    (text p0 : String) (rest : List String) (more : List Scan)
    (hfields : Fields (TrimSpace text) = p0 :: rest) :
    (ToLower L p0 = "send" → (p0 :: rest).length < 3 →
      mainLoopBody L a (.line text)
          = .done ({ a with stdout := a.stdout ++ ["> "] ++ [sendUsage] }, .next)
      ∧ mainLoop L a (.line text :: more)
          = mainLoop L { a with stdout := a.stdout ++ ["> "] ++ [sendUsage] } more)
    ∧ (ToLower L p0 ∉ knownCommands →
      mainLoopBody L a (.line text)
          = .done ({ a with stdout := a.stdout ++ ["> "] ++ [unknownCommand] }, .next)
      ∧ mainLoop L a (.line text :: more)
          = mainLoop L { a with stdout := a.stdout ++ ["> "] ++ [unknownCommand] } more) := by
  have hbody := mainLoopBody_line L a text p0 rest hfields
  constructor
  · intro hcmd hlen
    have h1 : mainLoopBody L a (.line text)
        = .done ({ a with stdout := a.stdout ++ ["> "] ++ [sendUsage] }, .next) := by
      rw [hbody, hcmd]
      unfold dispatchCommand
      rw [if_neg (by decide), if_neg (by decide), if_pos rfl, if_pos hlen]
    exact ⟨h1, by simp only [mainLoop, h1]⟩
  · intro hcmd
    have h1 : mainLoopBody L a (.line text)
        = .done ({ a with stdout := a.stdout ++ ["> "] ++ [unknownCommand] }, .next) := by
      rw [hbody]
      simp only [knownCommands, List.mem_cons, List.mem_singleton, List.not_mem_nil,
        or_false, not_or] at hcmd
      obtain ⟨hq, he, hh, hs, hhi, hse⟩ := hcmd
      simp [dispatchCommand, hq, he, hh, hs, hhi, hse]
    exact ⟨h1, by simp only [mainLoop, h1]⟩

/-- Witness of C9: the lines `send Bob` and `foo` on a fresh application state. -/
theorem malformed_send_and_unknown_command_only_print_witness :
    mainLoopBody asciiLib ⟨NewDispatcher NewMessageStore, [], []⟩ (.line "send Bob")
        = .done (⟨NewDispatcher NewMessageStore, ["> ", sendUsage], []⟩, .next)
    ∧ mainLoopBody asciiLib ⟨NewDispatcher NewMessageStore, [], []⟩ (.line "foo")
        = .done (⟨NewDispatcher NewMessageStore, ["> ", unknownCommand], []⟩, .next) :=
  ⟨((malformed_send_and_unknown_command_only_print asciiLib
      ⟨NewDispatcher NewMessageStore, [], []⟩ "send Bob" "send" ["Bob"] []
      (by decide)).1 (by decide) (by decide)).1,
   ((malformed_send_and_unknown_command_only_print asciiLib
      ⟨NewDispatcher NewMessageStore, [], []⟩ "foo" "foo" [] []
      (by decide)).2 (by decide)).1⟩

end SimpleChat
